import Mathlib

/-!
Shallow embedding of the task-management backend: task lifecycle
(`task.py`), user performance bookkeeping (`user.py`), team-member
scoring and assignment (`team_member.py`), the AI adapter's parsing and
fallback logic (`chatgpt_service.py`), the notification formatter's
escaping (`telegram_service.py`), and the task-update route's
reassignment branch (`routes/tasks.py`).

Machine reals (Python floats) are modelled as rationals; timestamps as
rational seconds; Python `round` (banker's rounding) as `py_round`;
text as `List Char`; fallible operations return `Option`.
-/

namespace App

/-- Python `round` rounds half to even; `round_half_even q` is that rounding
of a rational to an integer. -/
def round_half_even (q : ℚ) : ℤ :=
  let f := ⌊q⌋
  if q - f < 1/2 then f
  else if q - f > 1/2 then f + 1
  else if f % 2 = 0 then f else f + 1

/-- Python `round(x, n)`: round to `n` decimal digits, half to even. -/
def py_round (q : ℚ) (n : ℕ) : ℚ :=
  (round_half_even (q * 10 ^ n) : ℚ) / 10 ^ n

/-- State of a `Task` row (`task.py`), restricted to the fields the
lifecycle and scoring code reads or writes. -/
structure Task where
  status : String
  due_date : Option ℚ
  started_at : Option ℚ
  completed_at : Option ℚ
  estimated_hours : ℚ
  actual_hours : ℚ
  difficulty_rating : ℤ
  updated_at : ℚ
  deriving DecidableEq

/-- Property `Task.is_overdue`: false if no due date or already completed,
else `now > due_date`. -/
def is_overdue (now : ℚ) (t : Task) : Bool :=
  match t.due_date with
  | none => false
  | some d => if t.status = "completed" then false else decide (now > d)

/-- Property `Task.duration_hours`: 0 when not started, else hours from
`started_at` to `completed_at` (or `now`), rounded to 2 decimals. -/
def duration_hours (now : ℚ) (t : Task) : ℚ :=
  match t.started_at with
  | none => 0
  | some s => py_round ((t.completed_at.getD now - s) / 3600) 2

/-- Method `Task.start_task`: pending tasks move to in_progress with
`started_at := now`; returns whether anything happened. -/
def start_task (now : ℚ) (t : Task) : Task × Bool :=
  if t.status = "pending" then
    ({ t with status := "in_progress", started_at := some now, updated_at := now }, true)
  else (t, false)

/-- Method `Task.complete_task`: pending or in_progress tasks move to
completed with `completed_at := now`; `actual_hours` is recomputed from
`duration_hours` when the task had been started. -/
def complete_task (now : ℚ) (t : Task) : Task × Bool :=
  if t.status = "pending" ∨ t.status = "in_progress" then
    let t' := { t with status := "completed", completed_at := some now, updated_at := now }
    let t'' := if t'.started_at.isSome then { t' with actual_hours := duration_hours now t' } else t'
    (t'', true)
  else (t, false)

/-- Method `Task.update_status`: dispatches to start/complete/reset, with a
raw overwrite for every other combination; returns `old_status != new_status`. -/
def update_status (now : ℚ) (new_status : String) (t : Task) : Task × Bool :=
  let old_status := t.status
  let result :=
    if new_status = "in_progress" ∧ old_status = "pending" then
      (start_task now t).1
    else if new_status = "completed" ∧ (old_status = "pending" ∨ old_status = "in_progress") then
      let t₁ := if old_status = "pending" then { t with started_at := some now } else t
      (complete_task now t₁).1
    else if new_status = "pending" ∧ (old_status = "in_progress" ∨ old_status = "completed") then
      { t with status := "pending", started_at := none, completed_at := none,
               actual_hours := 0, updated_at := now }
    else
      { t with status := new_status, updated_at := now }
  (result, old_status != new_status)

/-- Method `Task.calculate_completion_score`: 50 base for completed plus
on-time, efficiency and difficulty bonuses; 25 base for in_progress with
an overdue penalty; clamped to [0, 100]. -/
def calculate_completion_score (now : ℚ) (t : Task) : ℚ :=
  let score : ℚ :=
    if t.status = "completed" then
      let s₁ : ℚ := 50
      let s₂ : ℚ := if ¬ (is_overdue now t = true) then s₁ + 20 else s₁
      let s₃ : ℚ :=
        if t.estimated_hours > 0 ∧ t.actual_hours > 0 then
          let efficiency := t.estimated_hours / t.actual_hours
          if efficiency ≥ 1 then s₂ + min 20 (efficiency * 10) else s₂
        else s₂
      s₃ + (t.difficulty_rating : ℚ) * 2
    else if t.status = "in_progress" then
      let s₁ : ℚ := 25
      if is_overdue now t = true then s₁ - 10 else s₁
    else 0
  min 100 (max 0 score)

/-- State of a `User` row (`user.py`), restricted to the performance
bookkeeping fields. -/
structure User where
  total_tasks_assigned : ℤ
  total_tasks_completed : ℤ
  average_completion_time : ℚ
  performance_score : ℚ
  updated_at : ℚ
  deriving DecidableEq

/-- Method `User.calculate_performance_score`: completion rate times a time
factor, clamped to [0, 100] and stored back on the user; returns 0 without
storing when no task was ever assigned. -/
def calculate_performance_score (u : User) : User × ℚ :=
  if u.total_tasks_assigned = 0 then (u, 0)
  else
    let completion_rate : ℚ := ((u.total_tasks_completed : ℚ) / (u.total_tasks_assigned : ℚ)) * 100
    let time_factor : ℚ :=
      if u.average_completion_time > 0 then max (1/10) (min 1 (24 / u.average_completion_time))
      else 1
    let score := completion_rate * time_factor
    let ps := min 100 (max 0 score)
    ({ u with performance_score := ps }, ps)

/-- The `assigned_to` branch of `update_task` (`routes/tasks.py`, lines
306-333): on reassignment the old assignee's counter is decremented when
positive, the new assignee's counter is incremented, and both get a fresh
`updated_at`; nothing else on either user is touched. -/
def reassign_branch (now : ℚ) (old_assignee new_assignee : User) : User × User :=
  let old' :=
    if old_assignee.total_tasks_assigned > 0 then
      { old_assignee with total_tasks_assigned := old_assignee.total_tasks_assigned - 1,
                          updated_at := now }
    else old_assignee
  let new' := { new_assignee with total_tasks_assigned := new_assignee.total_tasks_assigned + 1,
                                  updated_at := now }
  (old', new')

/-- Invariant claimed by the specification: `completed_at` is set iff the
status is completed, and `started_at` is set iff the status is in_progress
or completed. -/
def TaskInv (t : Task) : Prop :=
  (t.completed_at.isSome ↔ t.status = "completed") ∧
  (t.started_at.isSome ↔ (t.status = "in_progress" ∨ t.status = "completed"))

/-- A task whose status is one of the three canonical values. -/
def StatusOk (t : Task) : Prop :=
  t.status = "pending" ∨ t.status = "in_progress" ∨ t.status = "completed"

/-- A freshly constructed pending task (`Task.__init__` defaults). -/
def fresh_task : Task :=
  { status := "pending", due_date := none, started_at := none, completed_at := none,
    estimated_hours := 0, actual_hours := 0, difficulty_rating := 3, updated_at := 0 }

/-- Method `TeamMember.get_recent_activity_bonus`: 10 for a completion
within 1 day, 5 within 3 days, 0 otherwise or when never completed. -/
def get_recent_activity_bonus (days_since_last : Option ℤ) : ℚ :=
  match days_since_last with
  | none => 0
  | some d => if d ≤ 1 then 10 else if d ≤ 3 then 5 else 0

/-- Method `TeamMember.calculate_efficiency`: completion rate minus an
overdue penalty (5 per overdue task, capped at 20) plus the recent-activity
bonus, clamped to [0, 100] and rounded to 1 decimal; 0 when no tasks are
assigned.  The overdue count and the days since the last completion are
passed in, standing for the database queries the method performs. -/
def calculate_efficiency (tasks_assigned tasks_completed overdue_tasks : ℤ)
    (days_since_last : Option ℤ) : ℚ :=
  if tasks_assigned = 0 then 0
  else
    let completion_rate : ℚ := ((tasks_completed : ℚ) / (tasks_assigned : ℚ)) * 100
    let overdue_penalty : ℚ := min ((overdue_tasks : ℚ) * 5) 20
    let recent_bonus := get_recent_activity_bonus days_since_last
    let efficiency := max 0 (min 100 (completion_rate - overdue_penalty + recent_bonus))
    py_round efficiency 1

/-- A candidate as seen by `TeamMember.get_best_assignee_for_task`: its
freshly recomputed workload score and efficiency rating. -/
structure Assignee where
  workload_score : ℚ
  efficiency_rating : ℚ
  deriving DecidableEq

/-- The per-candidate score of `TeamMember.get_best_assignee_for_task`:
`workload_score * priority_factor - efficiency_rating / 10`, with
`priority_factor` 2.0 exactly when the task is urgent and the candidate's
efficiency is below 70, else 1.0. -/
def final_score (task_priority : String) (m : Assignee) : ℚ :=
  let priority_factor : ℚ :=
    if task_priority = "urgent" ∧ m.efficiency_rating < 70 then 2 else 1
  m.workload_score * priority_factor - m.efficiency_rating / 10

/-- Static method `TeamMember.get_best_assignee_for_task`: score every
member, sort ascending by score with Python's stable sort, and return the
first member; `none` when there are no members. -/
def get_best_assignee_for_task (task_priority : String) (team_members : List Assignee) :
    Option Assignee :=
  if team_members = [] then none
  else
    let scored_members := team_members.map (fun m => (m, final_score task_priority m))
    let sorted := scored_members.mergeSort (fun a b => decide (a.2 ≤ b.2))
    sorted.head?.map Prod.fst

/-- The element `c` occurs in `l` with the minimal key, and strictly beats
every element placed before it: the winner of a stable ascending sort, and
of Python's `min`. -/
def FirstArgmin {α β : Type} [LinearOrder β] (key : α → β) (l : List α) (c : α) : Prop :=
  ∃ pre post, l = pre ++ c :: post ∧ (∀ x ∈ l, key c ≤ key x) ∧ (∀ x ∈ pre, key c < key x)

/-- Python `str.find` for a single character: index of the first occurrence,
or -1. -/
def py_find (c : Char) (l : List Char) : ℤ :=
  match l.findIdx? (· = c) with
  | some i => (i : ℤ)
  | none => -1

/-- Python `str.rfind` for a single character: index of the last occurrence,
or -1. -/
def py_rfind (c : Char) (l : List Char) : ℤ :=
  match l.reverse.findIdx? (· = c) with
  | some i => ((l.length - 1 - i : ℕ) : ℤ)
  | none => -1

/-- Python slice `l[a:b]` for the non-negative indices the parsers produce. -/
def py_slice (l : List Char) (a b : ℤ) : List Char :=
  (l.take b.toNat).drop a.toNat

/-- The span selection shared by `ChatGPTService._parse_task_response`
(brackets) and `_parse_performance_response` / `_parse_assignment_response`
(braces): `start_idx = content.find(open)`,
`end_idx = content.rfind(close) + 1`, and `content[start_idx:end_idx]`
when both tests against -1 pass. -/
def extract_json_span (op cl : Char) (content : List Char) : Option (List Char) :=
  let start_idx := py_find op content
  let end_idx := py_rfind cl content + 1
  if start_idx ≠ -1 ∧ end_idx ≠ -1 then some (py_slice content start_idx end_idx)
  else none

/-- Modelled from the spec: depth-counting scan that closes the first
top-level structure once the depth returns to zero. Part of
`first_top_level_span`, the spec's parsing contract, absent from the code. -/
def match_top_level (op cl : Char) : List Char → ℕ → List Char → Option (List Char)
  | [], _, _ => none
  | c :: rest, depth, acc =>
    if c = op then match_top_level op cl rest (depth + 1) (c :: acc)
    else if c = cl then
      if depth = 1 then some (c :: acc).reverse
      else match_top_level op cl rest (depth - 1) (c :: acc)
    else match_top_level op cl rest depth (c :: acc)

/-- Modelled from the spec: the span of the first top-level
bracketed/braced structure of the text ("locate the first top-level
bracketed/braced structure and parse only that span").  This is the
specification's parsing contract, to be compared with the code's
`extract_json_span`. -/
def first_top_level_span (op cl : Char) : List Char → Option (List Char)
  | [] => none
  | c :: rest =>
    if c = op then match_top_level op cl (c :: rest) 0 []
    else first_top_level_span op cl rest

/-- Python `min(iterable, key)` over `acc :: rest`: keep the current best,
replacing it only on a strictly smaller key, so the first minimum wins. -/
def py_min {α β : Type} [LinearOrder β] (key : α → β) : α → List α → α
  | acc, [] => acc
  | acc, x :: xs => py_min key (if key x < key acc then x else acc) xs

/-- A team-member record as passed to the assignment fallback: username and
the two task counters its workload key reads. -/
structure MemberSummary where
  username : String
  total_tasks_assigned : ℤ
  total_tasks_completed : ℤ
  deriving DecidableEq

/-- Result record of `ChatGPTService.suggest_task_assignment`. -/
structure AssignmentSuggestion where
  recommended_member : Option String
  confidence : ℤ
  reasoning : String
  alternative : Option String
  workload_impact : String
  deriving DecidableEq

/-- Method `ChatGPTService._get_fallback_assignment`: with no candidates,
recommend nobody with confidence 0; otherwise recommend the candidate with
the minimal `assigned - completed` workload, confidence 50, with the second
list entry as the alternative. -/
def get_fallback_assignment (team_members : List MemberSummary) : AssignmentSuggestion :=
  match team_members with
  | [] =>
    { recommended_member := none, confidence := 0,
      reasoning := "No team members available", alternative := none,
      workload_impact := "unknown" }
  | m :: rest =>
    let best_member :=
      py_min (fun x => x.total_tasks_assigned - x.total_tasks_completed) m rest
    { recommended_member := some best_member.username, confidence := 50,
      reasoning := "Assigned to member with lowest current workload (AI analysis unavailable)",
      alternative := match rest with | [] => none | m2 :: _ => some m2.username,
      workload_impact := "medium" }

/-- A task suggestion as returned by
`ChatGPTService.generate_task_suggestions`. -/
structure SuggestedTask where
  title : String
  description : String
  priority : String
  estimated_hours : ℚ
  difficulty_rating : ℤ
  ai_context : String
  is_ai_generated : Bool
  deriving DecidableEq

/-- Method `ChatGPTService._get_fallback_tasks`: the fixed 3-item list
returned whenever AI generation is unavailable. -/
def get_fallback_tasks : List SuggestedTask :=
  [{ title := "Code Review and Optimization",
     description := "Review existing codebase for performance improvements and best practices",
     priority := "medium", estimated_hours := 4, difficulty_rating := 3,
     ai_context := "Fallback task - AI service unavailable", is_ai_generated := false },
   { title := "Update Documentation",
     description := "Update project documentation and README files",
     priority := "low", estimated_hours := 2, difficulty_rating := 2,
     ai_context := "Fallback task - AI service unavailable", is_ai_generated := false },
   { title := "Bug Investigation",
     description := "Investigate and fix reported bugs in the system",
     priority := "high", estimated_hours := 6, difficulty_rating := 4,
     ai_context := "Fallback task - AI service unavailable", is_ai_generated := false }]

/-- The fields `_parse_task_response` reads off one decoded JSON task
object; a missing field stands for an absent dictionary key. -/
structure RawTask where
  title : Option String
  description : Option String
  priority : Option String
  estimated_hours : Option ℚ
  difficulty_rating : Option ℤ
  reasoning : Option String

/-- One element of the decoded JSON array: a dictionary or something else
(`isinstance(task, dict)` distinguishes the two). -/
inductive RawItem where
  | dict (fields : RawTask)
  | nondict

/-- The validate-and-clean step of `_parse_task_response`: keep dictionary
entries that carry a title, fill defaults, tag as AI-generated. -/
def clean_task : RawItem → Option SuggestedTask
  | .nondict => none
  | .dict f =>
    if f.title.isSome then
      some { title := f.title.getD "AI Generated Task",
             description := f.description.getD "No description provided",
             priority := f.priority.getD "medium",
             estimated_hours := f.estimated_hours.getD 8,
             difficulty_rating := f.difficulty_rating.getD 3,
             ai_context := f.reasoning.getD "AI generated task",
             is_ai_generated := true }
    else none

/-- Method `ChatGPTService._parse_task_response`: select the bracket span,
decode it with the JSON library (`json_loads`, a parameter standing for
`json.loads`; `none` is a decode error), clean the entries; fall back on a
missing span or a decode error. -/
def parse_task_response (json_loads : List Char → Option (List RawItem))
    (content : List Char) : List SuggestedTask :=
  match extract_json_span '[' ']' content with
  | some json_str =>
    match json_loads json_str with
    | some tasks => tasks.filterMap clean_task
    | none => get_fallback_tasks
  | none => get_fallback_tasks

/-- Method `ChatGPTService.generate_task_suggestions`: fall back when the
client is unconfigured, when the API call fails (`api_response = none`),
or when parsing fails inside `parse_task_response`. -/
def generate_task_suggestions (json_loads : List Char → Option (List RawItem))
    (client_available : Bool) (api_response : Option (List Char)) : List SuggestedTask :=
  if ¬ client_available then get_fallback_tasks
  else
    match api_response with
    | none => get_fallback_tasks
    | some content => parse_task_response json_loads content

/-- Reserved characters of the Telegram MarkdownV2 dialect, as listed in
`TelegramService._escape_markdown`. -/
def special_chars : List Char :=
  ['_', '*', '[', ']', '(', ')', '~', '\x60', '>', '#', '+', '-', '=', '|', '\x7b', '\x7d', '.', '!']

/-- Python `text.replace(c, '\\' + c)` for a single character `c`. -/
def replace_char (c : Char) (l : List Char) : List Char :=
  l.flatMap (fun x => if x = c then ['\\', c] else [x])

/-- Method `TelegramService._escape_markdown`: replace each reserved
character in turn by its backslash-escaped form. -/
def escape_markdown (text : List Char) : List Char :=
  if text = [] then []
  else special_chars.foldl (fun acc c => replace_char c acc) text

/-- Pointwise description of escaping against a reserved set `cs`. -/
def esc_one (cs : List Char) (x : Char) : List Char :=
  if x ∈ cs then ['\\', x] else [x]

/-- Lists in which every reserved character is immediately preceded by a
backslash: empty, a non-reserved head, or a backslash-escaped pair. -/
inductive EscOk : List Char → Prop
  | nil : EscOk []
  | plain (c : Char) (hc : c ∉ special_chars) (l : List Char) (h : EscOk l) : EscOk (c :: l)
  | esc (c : Char) (l : List Char) (h : EscOk l) : EscOk ('\\' :: c :: l)

/-- Method `TelegramService._format_task_assignment_message`: the MarkdownV2
assignment notice.  Title, assignee username, priority (already
title-cased) and the description truncated to 200 characters are escaped
and interpolated into the fixed template; `due_date_formatted` stands for
the `strftime`-rendered due date when one parses. -/
def format_task_assignment_message
    (priority_emoji status_emoji title username description priority : List Char)
    (due_date_formatted : Option (List Char)) : List Char :=
  let title_e := escape_markdown title
  let assignee := escape_markdown username
  let description_e := escape_markdown (description.take 200)
  let priority_e := escape_markdown priority
  let due_date_str : List Char :=
    match due_date_formatted with
    | some d => ("\\n📅 *Due:* ").data ++ d
    | none => []
  ("🎯 *Task Assignment Notification*\n        \n").data ++
    priority_emoji ++ (" *Task:* ").data ++ title_e ++ ("\n").data ++
    status_emoji ++ (" *Status:* Assigned\n👤 *Assigned to:* @").data ++ assignee ++
    ("\n⚡ *Priority:* ").data ++ priority_e ++ due_date_str ++
    ("\n\n📝 *Description:*\n").data ++ description_e ++
    ("\n\n🤖 *AI Agent System* \\- Task Management").data

/-- Concrete user for the reassignment counterexample: 2 tasks assigned,
1 completed, stored performance score 50. -/
def user_x : User :=
  { total_tasks_assigned := 2, total_tasks_completed := 1, average_completion_time := 0,
    performance_score := 50, updated_at := 0 }

/-- Concrete user for the reassignment counterexample: nothing assigned,
stored performance score 70. -/
def user_y : User :=
  { total_tasks_assigned := 0, total_tasks_completed := 0, average_completion_time := 0,
    performance_score := 70, updated_at := 0 }

/-- Concrete completed task used to instantiate the completion-score
theorem. -/
def c6_task : Task :=
  { status := "completed", due_date := none, started_at := some 0, completed_at := some 3600,
    estimated_hours := 2, actual_hours := 1, difficulty_rating := 3, updated_at := 3600 }

/-- Concrete AI response text with prose around a bracketed payload. -/
def c7_content : List Char := ['o', 'k', ' ', '[', '1', ']', ' ', 'x']

end App
namespace App

/-- Inside `l ++ a :: r`, when nothing in `l` satisfies the predicate and
`a` does, the first hit is at index `l.length`. -/
theorem findIdx?_append_first {α : Type} (p : α → Bool) (l : List α) (a : α) (r : List α)
    (h : ∀ x ∈ l, ¬ p x) (ha : p a) :
    (l ++ a :: r).findIdx? p = some l.length := by
  induction l with
  | nil => simp [ha]
  | cons x xs ih =>
    have hx : ¬ p x := h x (List.mem_cons_self _ _)
    simp only [List.cons_append, List.findIdx?_cons, hx, if_false, List.length_cons]
    rw [List.findIdx?_succ, ih (fun y hy => h y (List.mem_cons_of_mem _ hy))]
    rfl

/-- Python `find` locates the first occurrence of the open character. -/
theorem py_find_append (op : Char) (pre rest : List Char) (h : op ∉ pre) :
    py_find op (pre ++ op :: rest) = (pre.length : ℤ) := by
  unfold py_find
  rw [findIdx?_append_first (· = op) pre op rest
      (fun x hx => by
        simp only [decide_eq_true_eq]
        exact fun he => h (he ▸ hx)) (by simp)]

/-- Python `rfind` locates the last occurrence of the close character. -/
theorem py_rfind_append (cl : Char) (l1 post : List Char) (h : cl ∉ post) :
    py_rfind cl (l1 ++ cl :: post) = (l1.length : ℤ) := by
  unfold py_rfind
  have hrev : (l1 ++ cl :: post).reverse = post.reverse ++ cl :: l1.reverse := by
    simp
  rw [hrev, findIdx?_append_first (· = cl) post.reverse cl l1.reverse
      (fun x hx => by
        simp only [decide_eq_true_eq]
        exact fun he => h (he ▸ (List.mem_reverse.mp hx))) (by simp)]
  simp only []
  simp

/-- What the parsers actually select: the span running from the first open
character of the whole text to its last close character. -/
theorem extract_span_chars (op cl : Char) (pre mid post : List Char)
    (h1 : op ∉ pre) (h2 : cl ∉ post) :
    extract_json_span op cl (pre ++ op :: (mid ++ cl :: post)) = some (op :: (mid ++ [cl])) := by
  have hf : py_find op (pre ++ op :: (mid ++ cl :: post)) = (pre.length : ℤ) :=
    py_find_append op pre (mid ++ cl :: post) h1
  have hr : py_rfind cl (pre ++ op :: (mid ++ cl :: post)) = (((pre ++ op :: mid).length : ℕ) : ℤ) := by
    rw [show pre ++ op :: (mid ++ cl :: post) = (pre ++ op :: mid) ++ cl :: post from by simp]
    exact py_rfind_append cl (pre ++ op :: mid) post h2
  unfold extract_json_span
  rw [hf, hr]
  have hpos : (pre.length : ℤ) ≠ -1 ∧ (((pre ++ op :: mid).length : ℕ) : ℤ) + 1 ≠ -1 := by
    constructor <;> omega
  rw [if_pos hpos]
  congr 1
  unfold py_slice
  have e1 : ((((pre ++ op :: mid).length : ℕ) : ℤ) + 1).toNat = (pre ++ op :: (mid ++ [cl])).length := by
    simp
    omega
  have e2 : ((pre.length : ℤ)).toNat = pre.length := by omega
  rw [e1, e2]
  rw [show pre ++ op :: (mid ++ cl :: post) = (pre ++ op :: (mid ++ [cl])) ++ post from by simp]
  rw [List.take_left, List.drop_left' (by simp)]

/-- Depth-1 scan over bracket-free middle text stops exactly at the close
character. -/
theorem match_top_level_scan (op cl : Char) (post : List Char) (hne : op ≠ cl) :
    ∀ (mid acc : List Char), op ∉ mid → cl ∉ mid →
      match_top_level op cl (mid ++ cl :: post) 1 acc = some ((cl :: (mid.reverse ++ acc)).reverse) := by
  intro mid
  induction mid with
  | nil =>
    intro acc _ _
    simp only [List.nil_append, match_top_level, if_neg (Ne.symm hne), if_pos rfl]
    simp
  | cons c mid ih =>
    intro acc hop hcl
    have hc1 : c ≠ op := fun he => hop (he ▸ List.mem_cons_self _ _)
    have hc2 : c ≠ cl := fun he => hcl (he ▸ List.mem_cons_self _ _)
    simp only [List.cons_append, match_top_level, if_neg hc1, if_neg hc2, List.append_eq]
    rw [ih (c :: acc) (fun hx => hop (List.mem_cons_of_mem _ hx))
        (fun hx => hcl (List.mem_cons_of_mem _ hx))]
    simp

/-- On flat payloads with bracket-free prose the spec's first-top-level
span is the open-to-close span. -/
theorem first_top_level_span_spec (op cl : Char) (pre mid post : List Char)
    (hne : op ≠ cl) (h1 : op ∉ pre) (hop : op ∉ mid) (hcl : cl ∉ mid) :
    first_top_level_span op cl (pre ++ op :: (mid ++ cl :: post)) = some (op :: (mid ++ [cl])) := by
  induction pre with
  | nil =>
    simp only [List.nil_append, first_top_level_span, if_pos rfl]
    simp only [match_top_level, if_pos rfl]
    rw [match_top_level_scan op cl post hne mid [op] hop hcl]
    simp
  | cons p pre ih =>
    have hp : p ≠ op := fun he => h1 (he ▸ List.mem_cons_self _ _)
    simp only [List.cons_append, first_top_level_span, if_neg hp]
    exact ih (fun hx => h1 (List.mem_cons_of_mem _ hx))

/-- The head of a stable ascending merge sort is the first element
attaining the minimal key. -/
theorem head_mergeSort_firstArgmin {α β : Type} [LinearOrder β] (key : α → β) :
    ∀ (l : List α), l ≠ [] →
      ∃ c, (l.mergeSort (fun a b => decide (key a ≤ key b))).head? = some c ∧
        FirstArgmin key l c := by
  have trans : ∀ (a b c : α), decide (key a ≤ key b) → decide (key b ≤ key c) →
      (decide (key a ≤ key c) : Bool) := by
    intro a b c hab hbc
    simp only [decide_eq_true_eq] at *
    exact le_trans hab hbc
  have total : ∀ (a b : α), (decide (key a ≤ key b) || decide (key b ≤ key a) : Bool) := by
    intro a b
    simp only [Bool.or_eq_true, decide_eq_true_eq]
    exact le_total _ _
  intro l
  induction l with
  | nil => intro h; exact absurd rfl h
  | cons a t ih =>
    intro _
    rcases eq_or_ne t [] with rfl | ht
    · refine ⟨a, by simp, [], [], rfl, ?_, by simp⟩
      intro x hx
      simp only [List.mem_singleton] at hx
      simp [hx]
    · obtain ⟨l₁, l₂, hEq, hEq2, hL1⟩ := List.mergeSort_cons trans total a t
      obtain ⟨c', hc'head, hc'fam⟩ := ih ht
      have hsorted := List.sorted_mergeSort trans total (a :: t)
      rw [hEq] at hsorted
      cases l₁ with
      | nil =>
        refine ⟨a, by simp [hEq], [], t, rfl, ?_, by simp⟩
        intro x hx
        rcases List.mem_cons.mp hx with rfl | hx
        · exact le_refl _
        · have hx2 : x ∈ List.mergeSort t (fun a b => decide (key a ≤ key b)) :=
            List.mem_mergeSort.mpr hx
          rw [hEq2, List.nil_append] at hx2
          have := List.rel_of_pairwise_cons hsorted hx2
          simpa using this
      | cons c t₁ =>
        have hhead : (List.mergeSort (a :: t) (fun a b => decide (key a ≤ key b))).head? = some c := by
          simp [hEq]
        have hc'c : c' = c := by
          rw [hEq2] at hc'head
          simp at hc'head
          exact hc'head.symm
        subst hc'c
        obtain ⟨pre, post, hdec, hmin, hstrict⟩ := hc'fam
        have hca : key c' < key a := by
          have := hL1 c' (List.mem_cons_self _ _)
          simp only [Bool.not_eq_eq_eq_not, Bool.not_true, decide_eq_false_iff_not] at this
          exact not_le.mp this
        refine ⟨c', hhead, a :: pre, post, by rw [hdec]; rfl, ?_, ?_⟩
        · intro x hx
          rcases List.mem_cons.mp hx with rfl | hx
          · exact le_of_lt hca
          · exact hmin x hx
        · intro x hx
          rcases List.mem_cons.mp hx with rfl | hx
          · exact hca
          · exact hstrict x hx

/-- Characterization of `get_best_assignee_for_task`: `none` exactly on an
empty candidate list, otherwise the first candidate with the minimal
`final_score`. -/
theorem best_assignee_characterization :
    (∀ p : String, get_best_assignee_for_task p [] = none) ∧
    (∀ (p : String) (ms : List Assignee), ms ≠ [] →
      ∃ c, get_best_assignee_for_task p ms = some c ∧ FirstArgmin (final_score p) ms c) := by
  constructor
  · intro p; simp [get_best_assignee_for_task]
  · intro p ms hne
    have hscored : ms.map (fun m => (m, final_score p m)) ≠ [] := by simpa using hne
    obtain ⟨cp, hhead, pre, post, hdec, hmin, hstrict⟩ :=
      head_mergeSort_firstArgmin Prod.snd (ms.map (fun m => (m, final_score p m))) hscored
    obtain ⟨pre', rest, hms, hmpre, hmrest⟩ := List.map_eq_append_iff.mp hdec
    obtain ⟨c₀, post', hrest, hfc, hmpost⟩ := List.map_eq_cons_iff.mp hmrest
    have hcp1 : cp.1 = c₀ := by rw [← hfc]
    have hcp2 : cp.2 = final_score p c₀ := by rw [← hfc]
    refine ⟨c₀, ?_, pre', post', by rw [hms, hrest], ?_, ?_⟩
    · rw [← hcp1]
      simp only [get_best_assignee_for_task, if_neg hne]
      rw [hhead]
      rfl
    · intro x hx
      have := hmin (x, final_score p x) (List.mem_map_of_mem _ hx)
      simpa [hcp2] using this
    · intro x hx
      have hxm : (x, final_score p x) ∈ pre := by
        rw [← hmpre]; exact List.mem_map_of_mem _ hx
      have := hstrict _ hxm
      simpa [hcp2] using this

/-- The worked numeric example: under an urgent priority, candidate A
(workload 5, efficiency 90) scores -4, candidate B (workload 2,
efficiency 40) suffers the 2x penalty and scores 0, so A wins. -/
theorem best_assignee_example :
    final_score "urgent" ⟨5, 90⟩ = -4 ∧
    final_score "urgent" ⟨2, 40⟩ = 0 ∧
    get_best_assignee_for_task "urgent" [⟨5, 90⟩, ⟨2, 40⟩] = some ⟨5, 90⟩ := by
  have hA : final_score "urgent" ⟨5, 90⟩ = -4 := by
    norm_num [final_score]
  have hB : final_score "urgent" ⟨2, 40⟩ = 0 := by
    norm_num [final_score]
  refine ⟨hA, hB, ?_⟩
  obtain ⟨c, hbest, pre, post, hdec, hmin, hstrict⟩ :=
    best_assignee_characterization.2 "urgent" [⟨5, 90⟩, ⟨2, 40⟩] (by simp)
  have hc : c = ⟨5, 90⟩ := by
    cases pre with
    | nil =>
      simp only [List.nil_append] at hdec
      injection hdec with h1 h2
      exact h1.symm
    | cons q qre =>
      cases qre with
      | nil =>
        simp only [List.cons_append, List.nil_append] at hdec
        injection hdec with h1 h2
        injection h2 with h3 h4
        have := hstrict q (List.mem_cons_self _ _)
        rw [← h1, ← h3, hA, hB] at this
        norm_num at this
      | cons q2 qre2 =>
        have hlen := congrArg List.length hdec
        simp at hlen
  rw [hc] at hbest
  exact hbest

/-- Python `min` over a nonempty list returns the first element attaining
the minimal key. -/
theorem py_min_firstArgmin {α β : Type} [LinearOrder β] (key : α → β) :
    ∀ (xs : List α) (acc : α), FirstArgmin key (acc :: xs) (py_min key acc xs) := by
  intro xs
  induction xs with
  | nil =>
    intro acc
    refine ⟨[], [], rfl, ?_, by simp⟩
    intro y hy
    simp only [List.mem_singleton] at hy
    subst hy
    simp [py_min]
  | cons x xs ih =>
    intro acc
    by_cases hx : key x < key acc
    · rw [show py_min key acc (x :: xs) = py_min key x xs from by simp [py_min, hx]]
      obtain ⟨pre, post, hdec, hmin, hstrict⟩ := ih x
      have hrx : key (py_min key x xs) ≤ key x := hmin x (List.mem_cons_self _ _)
      refine ⟨acc :: pre, post,
        by rw [show x :: xs = pre ++ py_min key x xs :: post from hdec]; rfl, ?_, ?_⟩
      · intro y hy
        rcases List.mem_cons.mp hy with rfl | hy
        · exact le_of_lt (lt_of_le_of_lt hrx hx)
        · exact hmin y hy
      · intro y hy
        rcases List.mem_cons.mp hy with rfl | hy
        · exact lt_of_le_of_lt hrx hx
        · exact hstrict y hy
    · rw [show py_min key acc (x :: xs) = py_min key acc xs from by simp [py_min, hx]]
      obtain ⟨pre, post, hdec, hmin, hstrict⟩ := ih acc
      have hax : key acc ≤ key x := not_lt.mp hx
      cases pre with
      | nil =>
        simp only [List.nil_append] at hdec
        have hacc : acc = py_min key acc xs := by
          have := congrArg List.head? hdec
          simpa using this
        refine ⟨[], x :: xs, by rw [← hacc]; rfl, ?_, by simp⟩
        intro y hy
        rcases List.mem_cons.mp hy with rfl | hy
        · rw [← hacc]
        · rcases List.mem_cons.mp hy with rfl | hy
          · calc key (py_min key acc xs) ≤ key acc := by rw [← hacc]
              _ ≤ key y := hax
          · exact hmin y (List.mem_cons_of_mem _ hy)
      | cons p pre =>
        have hp : acc = p := by
          have := congrArg List.head? hdec
          simpa using this
        subst hp
        have hxs : xs = pre ++ py_min key acc xs :: post := by
          have := congrArg List.tail hdec
          simpa using this
        have hra : key (py_min key acc xs) < key acc :=
          hstrict acc (List.mem_cons_self _ _)
        refine ⟨acc :: x :: pre, post, by
          conv_lhs => rw [hxs]
          rfl
        , ?_, ?_⟩
        · intro y hy
          rcases List.mem_cons.mp hy with rfl | hy
          · exact le_of_lt hra
          · rcases List.mem_cons.mp hy with rfl | hy
            · exact le_of_lt (lt_of_lt_of_le hra hax)
            · exact hmin y (List.mem_cons_of_mem _ hy)
        · intro y hy
          rcases List.mem_cons.mp hy with rfl | hy
          · exact hra
          · rcases List.mem_cons.mp hy with rfl | hy
            · exact lt_of_lt_of_le hra hax
            · exact hstrict y (List.mem_cons_of_mem _ hy)

/-- Sequentially replacing each reserved character (none of which is the
backslash, all distinct) equals one pointwise escaping pass. -/
theorem foldl_replace_eq_bind :
    ∀ (cs : List Char), '\\' ∉ cs → cs.Nodup →
      ∀ l : List Char, cs.foldl (fun acc c => replace_char c acc) l = l.flatMap (esc_one cs) := by
  intro cs
  induction cs with
  | nil =>
    intro _ _ l
    simp only [List.foldl_nil]
    have he : esc_one ([] : List Char) = fun x => [x] := funext fun x => by simp [esc_one]
    rw [he, List.flatMap_singleton']
  | cons c cs ih =>
    intro hbs hnd l
    simp only [List.foldl_cons]
    rw [ih (fun h => hbs (List.mem_cons_of_mem _ h)) (List.Nodup.of_cons hnd) (replace_char c l)]
    unfold replace_char
    rw [List.flatMap_assoc]
    congr 1
    funext x
    by_cases hxc : x = c
    · subst hxc
      have hbc : '\\' ∉ cs := fun h => hbs (List.mem_cons_of_mem _ h)
      have hcc : x ∉ cs := (List.nodup_cons.mp hnd).1
      simp [esc_one, hbc, hcc]
    · simp [esc_one, hxc, List.mem_cons]

/-- A pointwise escaping pass produces an `EscOk` list. -/
theorem escok_bind (l : List Char) : EscOk (l.flatMap (esc_one special_chars)) := by
  induction l with
  | nil => exact EscOk.nil
  | cons x l ih =>
    simp only [List.flatMap_cons]
    unfold esc_one
    by_cases hx : x ∈ special_chars
    · simp only [if_pos hx, List.cons_append, List.nil_append]
      exact EscOk.esc x _ ih
    · simp only [if_neg hx, List.cons_append, List.nil_append]
      exact EscOk.plain x hx _ ih

/-- In an `EscOk` list, any occurrence of a reserved character is directly
preceded by a backslash. -/
theorem escok_decomp {l : List Char} (h : EscOk l) :
    ∀ (pre : List Char) (c : Char) (post : List Char),
      l = pre ++ c :: post → c ∈ special_chars → ∃ pre', pre = pre' ++ ['\\'] := by
  induction h with
  | nil =>
    intro pre c post heq _
    exact absurd heq.symm (by simp)
  | plain d hd l hl ih =>
    intro pre c post heq hc
    cases pre with
    | nil =>
      simp only [List.nil_append] at heq
      injection heq with h1 h2
      exact absurd (h1 ▸ hc) hd
    | cons p pre =>
      simp only [List.cons_append] at heq
      injection heq with h1 h2
      obtain ⟨pre', rfl⟩ := ih pre c post h2 hc
      exact ⟨p :: pre', rfl⟩
  | esc d l hl ih =>
    intro pre c post heq hc
    cases pre with
    | nil =>
      simp only [List.nil_append] at heq
      injection heq with h1 h2
      have hb : ('\\' : Char) ∉ special_chars := by decide
      exact absurd (h1 ▸ hc) hb
    | cons p pre =>
      cases pre with
      | nil =>
        simp only [List.cons_append, List.nil_append] at heq
        injection heq with h1 h2
        exact ⟨[], by rw [h1]; rfl⟩
      | cons q pre =>
        simp only [List.cons_append] at heq
        injection heq with h1 h2
        injection h2 with h3 h4
        obtain ⟨pre', rfl⟩ := ih pre c post h4 hc
        exact ⟨p :: q :: pre', rfl⟩

/-- The escaping method is exactly the pointwise escaping pass. -/
theorem escape_markdown_eq_bind (l : List Char) :
    escape_markdown l = l.flatMap (esc_one special_chars) := by
  unfold escape_markdown
  by_cases hl : l = []
  · subst hl; simp
  · rw [if_neg hl, foldl_replace_eq_bind special_chars (by decide) (by decide) l]

/-- Every reserved character occurring in escaped output is directly
preceded by the backslash escape marker. -/
theorem escape_markdown_escapes (l : List Char) :
    ∀ (pre : List Char) (c : Char) (post : List Char),
      escape_markdown l = pre ++ c :: post → c ∈ special_chars →
      ∃ pre', pre = pre' ++ ['\\'] := by
  rw [escape_markdown_eq_bind]
  exact escok_decomp (escok_bind l)

/-- A list is a span of itself followed by anything. -/
theorem span_head (x r : List Char) : x <:+: x ++ r := ⟨[], r, by simp⟩

/-- Spans are preserved under prepending. -/
theorem span_glue (l : List Char) {x m : List Char} (h : x <:+: m) : x <:+: l ++ m := by
  obtain ⟨s, t, rfl⟩ := h
  exact ⟨l ++ s, t, by simp⟩

/-- The assignment notice interpolates the escaped title, username,
priority and 200-character-truncated description. -/
theorem format_message_fields (pe se title username description priority : List Char)
    (dd : Option (List Char)) :
    escape_markdown title <:+:
      format_task_assignment_message pe se title username description priority dd ∧
    escape_markdown username <:+:
      format_task_assignment_message pe se title username description priority dd ∧
    escape_markdown priority <:+:
      format_task_assignment_message pe se title username description priority dd ∧
    escape_markdown (description.take 200) <:+:
      format_task_assignment_message pe se title username description priority dd ∧
    (description.take 200).length ≤ 200 := by
  refine ⟨?_, ?_, ?_, ?_, ?_⟩
  · simp only [format_task_assignment_message, List.append_assoc]
    exact span_glue _ (span_glue _ (span_glue _ (span_head _ _)))
  · simp only [format_task_assignment_message, List.append_assoc]
    exact span_glue _ (span_glue _ (span_glue _ (span_glue _ (span_glue _ (span_glue _
      (span_glue _ (span_head _ _)))))))
  · simp only [format_task_assignment_message, List.append_assoc]
    exact span_glue _ (span_glue _ (span_glue _ (span_glue _ (span_glue _ (span_glue _
      (span_glue _ (span_glue _ (span_glue _ (span_head _ _)))))))))
  · simp only [format_task_assignment_message, List.append_assoc]
    exact span_glue _ (span_glue _ (span_glue _ (span_glue _ (span_glue _ (span_glue _
      (span_glue _ (span_glue _ (span_glue _ (span_glue _ (span_glue _ (span_glue _
        (span_head _ _))))))))))))
  · simp only [List.length_take]
    omega

end App
namespace App

/-- C1 (counterexample). The claim says reassignment recomputes
`performance_score` for both users afterward.  For `user_x` (2 assigned,
1 completed, stored score 50) reassigning to `user_y`, the stored score
stays 50 while a recomputation yields 100 — and `user_y` keeps 70 while a
recomputation yields 0 — so the claimed recomputation does not happen. -/
theorem C1_reassign_counterexample :
    ¬ ((reassign_branch 1 user_x user_y).1.performance_score =
         (calculate_performance_score (reassign_branch 1 user_x user_y).1).2 ∧
       (reassign_branch 1 user_x user_y).2.performance_score =
         (calculate_performance_score (reassign_branch 1 user_x user_y).2).2) := by
  intro h
  have h1 := h.1
  norm_num [reassign_branch, calculate_performance_score, user_x, user_y] at h1

/-- C1 (amended). Reassignment from X to Y decrements X's
`total_tasks_assigned` by 1 with a floor at 0, increments Y's by 1, and
leaves the stored `performance_score` (and the other statistics) of both
users unchanged: no recomputation takes place in this branch. -/
theorem C1_reassign_adjusts_counters_only (now : ℚ) (x y : User)
    (hx : 0 ≤ x.total_tasks_assigned) :
    (reassign_branch now x y).1.total_tasks_assigned = max 0 (x.total_tasks_assigned - 1) ∧
    (reassign_branch now x y).2.total_tasks_assigned = y.total_tasks_assigned + 1 ∧
    (reassign_branch now x y).1.performance_score = x.performance_score ∧
    (reassign_branch now x y).2.performance_score = y.performance_score ∧
    (reassign_branch now x y).1.total_tasks_completed = x.total_tasks_completed ∧
    (reassign_branch now x y).1.average_completion_time = x.average_completion_time := by
  by_cases h : x.total_tasks_assigned > 0 <;>
    simp [reassign_branch, h] <;> omega

/-- C1 (witness). The amended statement instantiated at `user_x` and
`user_y`. -/
theorem C1_witness :
    (reassign_branch 1 user_x user_y).1.total_tasks_assigned =
      max 0 (user_x.total_tasks_assigned - 1) ∧
    (reassign_branch 1 user_x user_y).2.total_tasks_assigned =
      user_y.total_tasks_assigned + 1 ∧
    (reassign_branch 1 user_x user_y).1.performance_score = user_x.performance_score ∧
    (reassign_branch 1 user_x user_y).2.performance_score = user_y.performance_score ∧
    (reassign_branch 1 user_x user_y).1.total_tasks_completed = user_x.total_tasks_completed ∧
    (reassign_branch 1 user_x user_y).1.average_completion_time =
      user_x.average_completion_time :=
  C1_reassign_adjusts_counters_only 1 user_x user_y (by norm_num [user_x])

/-- C2 (counterexample). Three lifecycle runs that break the claimed
invariant: updating a completed task to in_progress leaves `completed_at`
set; completing a fresh pending task directly leaves `started_at` unset
while the status is completed; and a raw overwrite to a non-canonical
status keeps `started_at` set. -/
theorem C2_lifecycle_counterexample :
    ¬ TaskInv (update_status 7200 "in_progress"
        (update_status 3600 "completed"
          (update_status 0 "in_progress" fresh_task).1).1).1 ∧
    ¬ TaskInv (complete_task 0 fresh_task).1 ∧
    ¬ TaskInv (update_status 3600 "archived"
        (update_status 0 "in_progress" fresh_task).1).1 := by
  refine ⟨?_, ?_, ?_⟩ <;>
    simp [update_status, start_task, complete_task, fresh_task, TaskInv,
      duration_hours, py_round, round_half_even]

/-- C2 (amended). For tasks in a canonical status satisfying the
invariant, the invariant (and canonicity) is preserved by `start_task`, by
`complete_task` on non-pending tasks, and by `update_status` for canonical
target statuses except the completed-to-in_progress overwrite; the
remaining combinations (direct completion of a pending task, that
overwrite, and raw non-canonical overwrites) violate it, as the
counterexample shows. -/
theorem C2_invariant_preserved (t : Task) (now : ℚ) (s : String)
    (hInv : TaskInv t) (hOk : StatusOk t) :
    (TaskInv (start_task now t).1 ∧ StatusOk (start_task now t).1) ∧
    (t.status ≠ "pending" → TaskInv (complete_task now t).1 ∧ StatusOk (complete_task now t).1) ∧
    ((s = "pending" ∨ s = "in_progress" ∨ s = "completed") →
      ¬(t.status = "completed" ∧ s = "in_progress") →
      TaskInv (update_status now s t).1 ∧ StatusOk (update_status now s t).1) := by
  obtain ⟨h1, h2⟩ := hInv
  rcases hOk with h | h | h
  · have hc : t.completed_at = none := by
      rw [← Option.not_isSome_iff_eq_none]; simp [h1, h]
    have hs : t.started_at = none := by
      rw [← Option.not_isSome_iff_eq_none]; simp [h2, h]
    refine ⟨?_, ?_, ?_⟩
    · simp [start_task, TaskInv, StatusOk, h, hc, hs]
    · intro hne; exact absurd h hne
    · rintro (rfl | rfl | rfl) hexc <;>
        simp [update_status, start_task, complete_task, TaskInv, StatusOk, h, hc, hs]
  · have hc : t.completed_at = none := by
      rw [← Option.not_isSome_iff_eq_none]; simp [h1, h]
    have hs : t.started_at.isSome = true := by simp [h2, h]
    refine ⟨?_, ?_, ?_⟩
    · simp [start_task, TaskInv, StatusOk, h, hc, hs]
    · intro _; simp [complete_task, TaskInv, StatusOk, h, hc, hs]
    · rintro (rfl | rfl | rfl) hexc <;>
        simp [update_status, start_task, complete_task, TaskInv, StatusOk, h, hc, hs]
  · have hcc : t.completed_at.isSome = true := by simp [h1, h]
    have hs : t.started_at.isSome = true := by simp [h2, h]
    refine ⟨?_, ?_, ?_⟩
    · simp [start_task, TaskInv, StatusOk, h, hcc, hs]
    · intro _; simp [complete_task, TaskInv, StatusOk, h, hcc, hs]
    · rintro (rfl | rfl | rfl) hexc <;>
        simp_all [update_status, start_task, complete_task, TaskInv, StatusOk]

/-- C2 (witness). The preservation statement applied to a fresh pending
task with target status in_progress. -/
theorem C2_witness :
    TaskInv (start_task 5 fresh_task).1 ∧
    TaskInv (update_status 5 "in_progress" fresh_task).1 := by
  have h := C2_invariant_preserved fresh_task 5 "in_progress"
    (by simp [TaskInv, fresh_task]) (by simp [StatusOk, fresh_task])
  exact ⟨h.1.1, (h.2.2 (Or.inr (Or.inl rfl)) (by simp [fresh_task])).1⟩

/-- C3. `get_best_assignee_for_task` returns `none` exactly on an empty
candidate list; on a nonempty list it returns the first candidate
attaining the minimal `final_score` (lowest score wins, ties broken by
input order); and on the worked example with urgent priority, candidate A
(workload 5, efficiency 90, score -4) beats candidate B (workload 2,
efficiency 40, doubled to score 0). -/
theorem C3_best_assignee :
    (∀ p : String, get_best_assignee_for_task p [] = none) ∧
    (∀ (p : String) (ms : List Assignee), ms ≠ [] →
      ∃ c, get_best_assignee_for_task p ms = some c ∧ FirstArgmin (final_score p) ms c) ∧
    final_score "urgent" ⟨5, 90⟩ = -4 ∧
    final_score "urgent" ⟨2, 40⟩ = 0 ∧
    get_best_assignee_for_task "urgent" [⟨5, 90⟩, ⟨2, 40⟩] = some ⟨5, 90⟩ :=
  ⟨best_assignee_characterization.1, best_assignee_characterization.2,
   best_assignee_example.1, best_assignee_example.2.1, best_assignee_example.2.2⟩

/-- C3 (witness). The nonempty case instantiated at the two worked
candidates. -/
theorem C3_witness :
    ∃ c, get_best_assignee_for_task "urgent" [⟨5, 90⟩, ⟨2, 40⟩] = some c ∧
      FirstArgmin (final_score "urgent") [⟨5, 90⟩, ⟨2, 40⟩] c :=
  C3_best_assignee.2.1 "urgent" [⟨5, 90⟩, ⟨2, 40⟩] (by simp)

/-- C4 (counterexample). On the text `x[1]y[2]` the parser selects the
span from the first opening bracket to the LAST closing bracket,
`[1]y[2]`, which differs from the first top-level bracketed structure
`[1]` required by the claim. -/
theorem C4_span_counterexample :
    extract_json_span '[' ']' ['x', '[', '1', ']', 'y', '[', '2', ']'] =
      some ['[', '1', ']', 'y', '[', '2', ']'] ∧
    first_top_level_span '[' ']' ['x', '[', '1', ']', 'y', '[', '2', ']'] =
      some ['[', '1', ']'] ∧
    (['[', '1', ']', 'y', '[', '2', ']'] : List Char) ≠ ['[', '1', ']'] :=
  ⟨by decide, by decide, by decide⟩

/-- C4 (amended). The parsers extract the span from the first opening
bracket/brace of the whole text to its last closing bracket/brace and
parse only that span; this agrees with the spec's first top-level
structure exactly when the structure is flat and the surrounding prose
holds no further bracket characters, and not in general. -/
theorem C4_span_amended (op cl : Char) (pre mid post : List Char)
    (h1 : op ∉ pre) (h2 : cl ∉ post) :
    extract_json_span op cl (pre ++ op :: (mid ++ cl :: post)) = some (op :: (mid ++ [cl])) ∧
    (op ≠ cl → op ∉ mid → cl ∉ mid →
      first_top_level_span op cl (pre ++ op :: (mid ++ cl :: post)) = some (op :: (mid ++ [cl]))) :=
  ⟨extract_span_chars op cl pre mid post h1 h2,
   fun hne hop hcl => first_top_level_span_spec op cl pre mid post hne h1 hop hcl⟩

/-- C4 (witness). The amended statement instantiated on a concrete prose
text around a flat bracketed payload. -/
theorem C4_witness :
    extract_json_span '[' ']' (['a', ' '] ++ '[' :: (['1', ','] ++ ']' :: [' ', 'z'])) =
      some ('[' :: (['1', ','] ++ [']'])) ∧
    first_top_level_span '[' ']' (['a', ' '] ++ '[' :: (['1', ','] ++ ']' :: [' ', 'z'])) =
      some ('[' :: (['1', ','] ++ [']'])) := by
  have h := C4_span_amended '[' ']' ['a', ' '] ['1', ','] [' ', 'z'] (by decide) (by decide)
  exact ⟨h.1, h.2 (by decide) (by decide) (by decide)⟩

/-- C5. `calculate_efficiency` is exactly 0 for a member with 0 assigned
tasks whatever the other inputs; for 10 assigned, 10 completed, 0 overdue
and a completion within the last day it is exactly 100 (rate 100, penalty
0, bonus 10, clamped to 100, rounded to 1 decimal). -/
theorem C5_efficiency :
    (∀ (c o : ℤ) (d : Option ℤ), calculate_efficiency 0 c o d = 0) ∧
    calculate_efficiency 10 10 0 (some 0) = 100 := by
  constructor
  · intro c o d; simp [calculate_efficiency]
  · norm_num [calculate_efficiency, get_recent_activity_bonus, py_round, round_half_even]

/-- C6. `calculate_completion_score` always lies in [0, 100]; and for two
completed tasks identical except for `difficulty_rating`, the higher
difficulty never yields a lower score. -/
theorem C6_completion_score :
    (∀ (now : ℚ) (t : Task),
      0 ≤ calculate_completion_score now t ∧ calculate_completion_score now t ≤ 100) ∧
    (∀ (now : ℚ) (t : Task) (d₁ d₂ : ℤ), t.status = "completed" → d₁ ≤ d₂ →
      calculate_completion_score now { t with difficulty_rating := d₁ } ≤
      calculate_completion_score now { t with difficulty_rating := d₂ }) := by
  constructor
  · intro now t
    simp only [calculate_completion_score]
    exact ⟨le_min (by norm_num) (le_max_left _ _), min_le_left _ _⟩
  · intro now t d₁ d₂ hst hd
    simp only [calculate_completion_score, is_overdue, hst, if_true]
    gcongr

/-- C6 (witness). The bounds and the monotonicity instantiated at the
concrete completed task `c6_task` with difficulties 1 and 5. -/
theorem C6_witness :
    0 ≤ calculate_completion_score 0 c6_task ∧
    calculate_completion_score 0 c6_task ≤ 100 ∧
    (1 : ℤ) ≤ (5 : ℤ) ∧
    calculate_completion_score 0 { c6_task with difficulty_rating := 1 } ≤
      calculate_completion_score 0 { c6_task with difficulty_rating := 5 } :=
  ⟨(C6_completion_score.1 0 c6_task).1,
   (C6_completion_score.1 0 c6_task).2,
   by norm_num,
   C6_completion_score.2 0 c6_task 1 5 rfl (by norm_num)⟩

/-- C7. Whenever AI generation is unavailable — client unconfigured, API
call failed, no bracket span in the response, or a JSON decode failure on
the selected span — `generate_task_suggestions` returns exactly the fixed
3-item fallback list (code review, documentation, bug investigation), each
entry carrying `is_ai_generated = false` and the explanatory
`ai_context`. -/
theorem C7_fallback_tasks :
    (∀ json_loads resp, generate_task_suggestions json_loads false resp = get_fallback_tasks) ∧
    (∀ json_loads, generate_task_suggestions json_loads true none = get_fallback_tasks) ∧
    (∀ json_loads content span, extract_json_span '[' ']' content = some span →
      json_loads span = none →
      generate_task_suggestions json_loads true (some content) = get_fallback_tasks) ∧
    (∀ json_loads content, extract_json_span '[' ']' content = none →
      generate_task_suggestions json_loads true (some content) = get_fallback_tasks) ∧
    get_fallback_tasks.length = 3 ∧
    get_fallback_tasks.map (fun t => t.title) =
      ["Code Review and Optimization", "Update Documentation", "Bug Investigation"] ∧
    (∀ t ∈ get_fallback_tasks, t.is_ai_generated = false ∧
      t.ai_context = "Fallback task - AI service unavailable") := by
  refine ⟨fun _ _ => rfl, fun _ => rfl, ?_, ?_, rfl, rfl, ?_⟩
  · intro json_loads content span hspan hnone
    simp [generate_task_suggestions, parse_task_response, hspan, hnone]
  · intro json_loads content hspan
    simp [generate_task_suggestions, parse_task_response, hspan]
  · intro t ht
    simp only [get_fallback_tasks, List.mem_cons, List.not_mem_nil, or_false] at ht
    rcases ht with rfl | rfl | rfl <;> exact ⟨rfl, rfl⟩

/-- C7 (witness). An unparseable concrete response (the JSON library
rejects the selected span) and an unconfigured client both yield the
fallback list. -/
theorem C7_witness :
    generate_task_suggestions (fun _ => none) true (some c7_content) = get_fallback_tasks ∧
    generate_task_suggestions (fun _ => none) false none = get_fallback_tasks :=
  ⟨C7_fallback_tasks.2.2.1 (fun _ => none) c7_content ['[', '1', ']'] (by decide) rfl,
   C7_fallback_tasks.1 (fun _ => none) none⟩

/-- C8. The assignment fallback recommends nobody with confidence 0 on an
empty candidate list; on a nonempty list it recommends the first candidate
with the minimal workload delta `assigned - completed` with confidence
fixed at 50; with deltas [3, 1, 5] it recommends the delta-1 candidate. -/
theorem C8_fallback_assignment :
    ((get_fallback_assignment []).recommended_member = none ∧
     (get_fallback_assignment []).confidence = 0) ∧
    (∀ (m : MemberSummary) (rest : List MemberSummary),
      ∃ c, FirstArgmin (fun x => x.total_tasks_assigned - x.total_tasks_completed) (m :: rest) c ∧
        (get_fallback_assignment (m :: rest)).recommended_member = some c.username ∧
        (get_fallback_assignment (m :: rest)).confidence = 50) ∧
    (get_fallback_assignment
      [⟨"alice", 3, 0⟩, ⟨"bob", 1, 0⟩, ⟨"carol", 5, 0⟩]).recommended_member = some "bob" := by
  refine ⟨⟨rfl, rfl⟩, ?_, ?_⟩
  · intro m rest
    exact ⟨py_min (fun x => x.total_tasks_assigned - x.total_tasks_completed) m rest,
      py_min_firstArgmin _ rest m, rfl, rfl⟩
  · rfl

/-- C9. In the rendered assignment notice every interpolated entity string
— title, assignee username, priority, and the description truncated to at
most 200 characters before interpolation — passes through
`escape_markdown`, and in escaped output every occurrence of a reserved
MarkdownV2 character is immediately preceded by the backslash escape
marker. -/
theorem C9_escaping_and_truncation :
    (∀ (l pre : List Char) (c : Char) (post : List Char),
      escape_markdown l = pre ++ c :: post → c ∈ special_chars →
      ∃ pre', pre = pre' ++ ['\\']) ∧
    (∀ (pe se title username description priority : List Char) (dd : Option (List Char)),
      escape_markdown title <:+:
        format_task_assignment_message pe se title username description priority dd ∧
      escape_markdown username <:+:
        format_task_assignment_message pe se title username description priority dd ∧
      escape_markdown priority <:+:
        format_task_assignment_message pe se title username description priority dd ∧
      escape_markdown (description.take 200) <:+:
        format_task_assignment_message pe se title username description priority dd ∧
      (description.take 200).length ≤ 200) :=
  ⟨fun l => escape_markdown_escapes l,
   fun pe se title username description priority dd =>
     format_message_fields pe se title username description priority dd⟩

/-- C9 (witness). Escaping `a.b` yields `a\.b`; the occurrence of the
reserved dot decomposes the output with a backslash right before it. -/
theorem C9_witness :
    ∃ pre', (['a', '\\'] : List Char) = pre' ++ ['\\'] :=
  C9_escaping_and_truncation.1 ['a', '.', 'b'] ['a', '\\'] '.' ['b'] (by decide) (by decide)

/-- C10. `update_status` returns true exactly when the requested status
differs from the task's status before the call — for every status string,
including non-canonical ones; in particular re-requesting the current
status returns false, the signal callers use to gate counter
bookkeeping. -/
theorem C10_update_status_change (now : ℚ) (s : String) (t : Task) :
    ((update_status now s t).2 = true) ↔ t.status ≠ s := by
  simp [update_status, bne_iff_ne]

end App
